import Mathlib

/-!
Answer-resolution pipeline of `server.js`.

A shallow embedding of the decision logic of `src/server.js`: the text
normalizer, the keyword similarity scorer, the corpus matcher, the
"looks English" heuristic, the personality responder, the web fallback
chain and the `/chat` handler.

Modelling conventions.

* A JavaScript string is the list of its UTF-16 code units (`JSString`);
  `s.length`, regular expressions without the `u` flag, `includes` and
  `split` all work on code units.
* The numbers that the program computes are quotients of two natural numbers
  (sizes of keyword sets, counts of code units), compared with one another
  and with the literals 0.8, 0.55 and 0.15. They are modelled by rationals:
  a correctly rounded quotient of naturals below 2^26 compares with another
  such quotient, and with these literals, as the exact quotients do.
* A value that may be `null`/`undefined` is an `Option`.
* The outside world (HTTP calls of the providers) enters as an `Outcome`
  parameter: what the guarded block of the provider produced, or that it
  threw.
-/

namespace Server

/-- A JavaScript string: its UTF-16 code units. -/
abbrev JSString := List Nat

/-- UTF-16 code units of one Unicode scalar value. -/
def utf16Char (c : Char) : List Nat :=
  if c.toNat < 0x10000 then [c.toNat]
  else [0xD800 + (c.toNat - 0x10000) / 0x400, 0xDC00 + (c.toNat - 0x10000) % 0x400]

/-- The JavaScript string denoted by a string literal. -/
def js (s : String) : JSString :=
  s.toList.flatMap utf16Char

/-! ## Text helpers (`server.js` lines 48-57) -/

/-- `STOPWORDS` (lines 48-51). -/
def STOPWORDS : List JSString :=
  [js "the", js "is", js "in", js "at", js "which", js "on", js "a", js "an", js "and",
   js "of", js "for", js "to", js "from", js "by", js "what", js "who", js "when",
   js "where", js "why", js "how", js "about", js "tell", js "me"]

/-- Lower-casing of one code unit by `String.prototype.toLowerCase`.
ASCII capitals map to ASCII small letters; U+0130 maps to `i` followed by
U+0307 and U+212A (Kelvin sign) maps to `k`: these are the only code units
outside ASCII whose lower-case form contains an ASCII code unit. Every
other code unit outside ASCII has a lower-case form made of code units that
are outside ASCII and outside the white-space class; the model keeps such a
unit unchanged, which no caller can tell apart (`normalize` turns each of
them into a space, `personalityReply` looks for ASCII patterns only). -/
def lowerUnit (c : Nat) : List Nat :=
  if 0x41 ≤ c ∧ c ≤ 0x5A then [c + 0x20]
  else if c = 0x130 then [0x69, 0x307]
  else if c = 0x212A then [0x6B]
  else [c]

/-- `s.toLowerCase()`. -/
def toLowerCase (s : JSString) : JSString :=
  s.flatMap lowerUnit

/-- The class `\w` of a regular expression without flags: `[A-Za-z0-9_]`. -/
def isWord (c : Nat) : Bool :=
  (0x41 ≤ c && c ≤ 0x5A) || (0x61 ≤ c && c ≤ 0x7A) || (0x30 ≤ c && c ≤ 0x39) || c == 0x5F

/-- The class `\s`: white space and line terminators of ECMAScript. -/
def isSpace (c : Nat) : Bool :=
  (0x09 ≤ c && c ≤ 0x0D) || c == 0x20 || c == 0xA0 || c == 0x1680 ||
  (0x2000 ≤ c && c ≤ 0x200A) || c == 0x2028 || c == 0x2029 || c == 0x202F ||
  c == 0x205F || c == 0x3000 || c == 0xFEFF

/-- `s.replace(/[^\w\s]/g, " ")`. -/
def replaceNonWord (s : JSString) : JSString :=
  s.map (fun c => if isWord c || isSpace c then c else 0x20)

/-- `s.replace(/\s+/g, " ")`; the flag tells whether the previous code unit
belonged to the white-space run being replaced. -/
def collapseAux : Bool → JSString → JSString
  | _, [] => []
  | inRun, c :: cs =>
    if isSpace c then
      if inRun then collapseAux true cs else 0x20 :: collapseAux true cs
    else c :: collapseAux false cs

/-- `s.replace(/\s+/g, " ")`. -/
def collapseSpaces (s : JSString) : JSString :=
  collapseAux false s

/-- `s.trim()`. -/
def trim (s : JSString) : JSString :=
  ((s.dropWhile isSpace).reverse.dropWhile isSpace).reverse

/-- `normalize` (lines 52-54); `s || ""` is the identity on strings. -/
def normalize (s : JSString) : JSString :=
  trim (collapseSpaces (replaceNonWord (toLowerCase s)))

/-- `s.split(" ")`. -/
def split : JSString → List JSString
  | [] => [[]]
  | c :: cs =>
    if c = 0x20 then [] :: split cs
    else match split cs with
      | [] => [[c]]
      | w :: ws => (c :: w) :: ws

/-- `keywords` (lines 55-57). -/
def keywords (text : JSString) : List JSString :=
  (split (normalize text)).filter (fun w => !w.isEmpty && !STOPWORDS.contains w)

/-- `Set.prototype.add`: a set is the list of its elements in insertion
order. -/
def addKey (acc : List JSString) (x : JSString) : List JSString :=
  if acc.contains x then acc else acc ++ [x]

/-- `new Set(xs)`. -/
def mkSet (xs : List JSString) : List JSString :=
  xs.foldl addKey []

/-- `s.includes(t)`: `t` occurs in `s` as a contiguous block. -/
def includes : JSString → JSString → Bool
  | [], t => t.isEmpty
  | c :: cs, t => t.isPrefixOf (c :: cs) || includes cs t

/-- `keywordScore` (lines 58-67). -/
def keywordScore (a b : JSString) : ℚ :=
  let A := mkSet (keywords a)
  let B := mkSet (keywords b)
  if A.length = 0 ∨ B.length = 0 then 0
  else
    let inter := (A.filter (fun x => B.contains x)).length
    let union := (mkSet (A ++ B)).length
    let score : ℚ := (inter : ℚ) / (union : ℚ)
    if includes (normalize a) (normalize b) || includes (normalize b) (normalize a)
    then max score 0.8 else score

/-- A corpus entry of `data.json`. -/
structure Entry where
  question : JSString
  answer : JSString
deriving DecidableEq, Repr

/-- The loop of `findBestAnswer` (lines 69-73): the state is `(best, bestScore)`. -/
def scan (message : JSString) : List Entry → Option Entry × ℚ → Option Entry × ℚ
  | [], st => st
  | item :: rest, (best, bestScore) =>
    let s := keywordScore message item.question
    if s > bestScore then scan message rest (some item, s)
    else scan message rest (best, bestScore)

/-- `findBestAnswer` (lines 68-80). -/
def findBestAnswer (qaData : List Entry) (message : JSString) : Option JSString :=
  match scan message qaData (none, 0) with
  | (some best, bestScore) => if bestScore ≥ 0.55 then some best.answer else none
  | (none, _) => none

/-! ## Generative provider (lines 85-115) -/

/-- What the guarded block of a provider did for one request: it produced a
value (a string, or `null`/`undefined`), or it threw (transport, status,
time-out or parse fault). -/
inductive Outcome where
  | value (v : Option JSString)
  | thrown
deriving DecidableEq, Repr

/-- A provider's guarded block as a function of the text it is given. -/
abbrev Backend := JSString → Outcome

/-- JavaScript truthiness of a string or null: `null` and `""` are falsy. -/
def truthy (x : Option JSString) : Bool :=
  match x with
  | some s => !s.isEmpty
  | none => false

/-- `askGroq` (lines 85-115). `hasKey` tells whether `GROQ_API_KEY` is set;
`post prompt` is the guarded request, its value `choices[0].message.content`;
the result is `text?.trim() || null`. -/
def askGroq (hasKey : Bool) (post : Backend) (prompt : JSString) : Option JSString :=
  if !hasKey then none
  else match post prompt with
    | Outcome.value text => if truthy (text.map trim) then text.map trim else none
    | Outcome.thrown => none

/-! ## Web fallbacks (lines 120-189) -/

/-- The class `[A-Za-z]`. -/
def isAsciiLetter (c : Nat) : Bool :=
  (0x41 ≤ c && c ≤ 0x5A) || (0x61 ≤ c && c ≤ 0x7A)

/-- The class `[^\x00-\x7F]`. -/
def isNonAscii (c : Nat) : Bool :=
  !(c ≤ 0x7F)

/-- `looksEnglish` (lines 120-125) on a string (`!s` holds of `""` only). -/
def looksEnglish (s : JSString) : Bool :=
  if s.isEmpty then false
  else
    let letters := (s.filter isAsciiLetter).length
    let nonAscii := (s.filter isNonAscii).length
    decide (letters > 5) && decide ((nonAscii : ℚ) / (s.length : ℚ) < 0.15)

/-- `googleSearch` (lines 127-144) at its boundary: the value of the guarded
block, `null` when it threw. -/
def googleSearch (get : Backend) (query : JSString) : Option JSString :=
  match get query with
  | Outcome.value v => v
  | Outcome.thrown => none

/-- `duckDuckGoSearch` (lines 146-158) at its boundary. -/
def duckDuckGoSearch (get : Backend) (query : JSString) : Option JSString :=
  match get query with
  | Outcome.value v => v
  | Outcome.thrown => none

/-- `wikipediaSearch` (lines 160-179) at its boundary. -/
def wikipediaSearch (get : Backend) (query : JSString) : Option JSString :=
  match get query with
  | Outcome.value v => v
  | Outcome.thrown => none

/-- The three search backends. -/
structure Web where
  google : Backend
  duck : Backend
  wiki : Backend

/-- `webFallback` (lines 181-189); a pattern `some (c :: s)` is a truthy
string. -/
def webFallback (web : Web) (query : JSString) : JSString :=
  match googleSearch web.google query with
  | some (c :: g) => js "From Google: " ++ (c :: g)
  | _ =>
    match duckDuckGoSearch web.duck query with
    | some (c :: d) => js "From DuckDuckGo: " ++ (c :: d)
    | _ =>
      match wikipediaSearch web.wiki query with
      | some (c :: w) => js "From Wikipedia: " ++ (c :: w)
      | _ => js "I couldn't find a clear English answer for “" ++ query ++ js "”."

/-! ## Personality replies (lines 194-201) -/

/-- The reply to the identity questions (line 197). -/
def creatorReply : JSString :=
  js "My creator is Abhiranjan Singh — smart, funny, and a bit pagal 😜"

/-- The reply to the relationship questions (line 199). -/
def singleReply : JSString :=
  js "Haha, still single — my love life is stuck in beta mode 🤖💕"

/-- `personalityReply` (lines 194-201). -/
def personalityReply (message : JSString) : Option JSString :=
  let m := toLowerCase message
  if includes m (js "who created you") || includes m (js "who made you") then
    some creatorReply
  else if includes m (js "girlfriend") || includes m (js "boyfriend") then
    some singleReply
  else none

/-! ## Chat endpoint (lines 206-229) -/

/-- Everything outside the request that the handler reads: the corpus, the
configuration and the external backends. -/
structure World where
  qaData : List Entry
  hasKey : Bool
  groq : Backend
  web : Web

/-- The apology of line 224. -/
def apologyReply : JSString :=
  js "😕 Sorry, I couldn’t find a clear answer."

/-- The fallback chain of the handler (lines 212-224): the value of the
`reply` field sent with status 200. -/
def resolve (w : World) (message : JSString) : Option JSString :=
  let reply := personalityReply message
  if truthy reply then reply
  else
    let reply := findBestAnswer w.qaData message
    if truthy reply then reply
    else
      let reply := askGroq w.hasKey w.groq message
      if truthy reply then reply
      else
        let reply := webFallback w.web message
        if truthy (some reply) then some reply else some apologyReply

/-- A response of the endpoint: HTTP status and the `reply` field. -/
structure Response where
  status : Nat
  reply : Option JSString
deriving DecidableEq, Repr

/-- The `/chat` handler (lines 206-229) on a body whose `message` field is a
string or absent; nothing in the guarded block throws on such a body. -/
def chat (w : World) (message : Option JSString) : Response :=
  match message with
  | some (c :: m) => ⟨200, resolve w (c :: m)⟩
  | _ => ⟨400, some (js "No message received.")⟩

/-! ## Notions used to state the properties -/

/-- ASCII case folding of one code unit. -/
def asciiLower (c : Nat) : Nat :=
  if 0x41 ≤ c ∧ c ≤ 0x5A then c + 0x20 else c

/-- The text `q` contains the small-letter ASCII pattern `pat`
case-insensitively: `pat` occurs in `q` once the ASCII capitals of `q` are
made small. -/
def containsCI (q pat : JSString) : Bool :=
  includes (q.map asciiLower) pat

/-- A pattern of ASCII code units without `k` in which every `i` is followed
by a further unit: on such patterns `toLowerCase` followed by `includes`
agrees with `containsCI` (U+212A lower-cases to `k`, U+0130 to `i` followed
by U+0307). -/
def plainPattern : JSString → Bool
  | [] => true
  | c :: rest => decide (c < 0x80) && c != 0x6B && (c != 0x69 || !rest.isEmpty) && plainPattern rest

/-- The apology in the wording of the specification: the query between
straight double quotes (U+0022). -/
def apologyStraight (query : JSString) : JSString :=
  js "I couldn't find a clear English answer for \"" ++ query ++ js "\"."

/-- A backend whose request always fails. -/
def failing : Backend :=
  fun _ => Outcome.thrown

/-- A backend that answers every request with `s`. -/
def answering (s : JSString) : Backend :=
  fun _ => Outcome.value (some s)

/-- The three search backends all failing. -/
def deadWeb : Web :=
  ⟨failing, failing, failing⟩

/-- The corpus entry of the specification's example. -/
def nameEntry : Entry :=
  ⟨js "What is your name?", js "I am ChatBot."⟩

/-- An entry whose question has the keywords of `nameEntry`. -/
def tiedEntry : Entry :=
  ⟨js "Your name?", js "Call me Bot."⟩

/-- An entry on another subject. -/
def otherEntry : Entry :=
  ⟨js "How are you?", js "Fine."⟩

/-- An entry whose answer is the empty string. -/
def emptyAnswerEntry : Entry :=
  ⟨js "hello world", js ""⟩

/-- A world with the given corpus, a configured generative provider that
answers "42" and no working search backend. -/
def world42 (corpus : List Entry) : World :=
  ⟨corpus, true, answering (js "42"), deadWeb⟩

end Server

namespace Server

/-! ## Sets of keywords -/

theorem mkSet_eq_foldl (xs : List JSString) : mkSet xs = xs.foldl addKey [] := rfl

theorem foldl_addKey_spec (xs : List JSString) :
    ∀ acc : List JSString, acc.Nodup →
      (xs.foldl addKey acc).Nodup ∧ ∀ y, y ∈ xs.foldl addKey acc ↔ y ∈ acc ∨ y ∈ xs := by
  induction xs with
  | nil => intro acc h; simp [h]
  | cons x xs ih =>
    intro acc h
    by_cases hx : x ∈ acc
    · have hstep : addKey acc x = acc := by simp [addKey, hx]
      obtain ⟨h1, h2⟩ := ih acc h
      simp only [List.foldl_cons, hstep]
      refine ⟨h1, fun y => ?_⟩
      rw [h2 y]
      constructor
      · rintro (hy | hy)
        · exact Or.inl hy
        · exact Or.inr (List.mem_cons_of_mem _ hy)
      · rintro (hy | hy)
        · exact Or.inl hy
        · rcases List.mem_cons.mp hy with rfl | hy
          · exact Or.inl hx
          · exact Or.inr hy
    · have hstep : addKey acc x = acc ++ [x] := by simp [addKey, hx]
      have hnd : (acc ++ [x]).Nodup := by
        rw [List.nodup_append]
        refine ⟨h, List.nodup_singleton x, ?_⟩
        intro a ha hb
        rw [List.mem_singleton] at hb
        exact hx (hb ▸ ha)
      obtain ⟨h1, h2⟩ := ih (acc ++ [x]) hnd
      simp only [List.foldl_cons, hstep]
      refine ⟨h1, fun y => ?_⟩
      rw [h2 y]
      simp only [List.mem_append, List.mem_singleton, List.mem_cons]
      tauto

theorem mkSet_nodup (xs : List JSString) : (mkSet xs).Nodup :=
  (foldl_addKey_spec xs [] List.nodup_nil).1

theorem mem_mkSet (xs : List JSString) (y : JSString) : y ∈ mkSet xs ↔ y ∈ xs := by
  have h := (foldl_addKey_spec xs [] List.nodup_nil).2 y
  simpa [mkSet_eq_foldl] using h

theorem mkSet_toFinset (xs : List JSString) : (mkSet xs).toFinset = xs.toFinset := by
  ext y
  simp [mem_mkSet]

theorem mkSet_length (xs : List JSString) : (mkSet xs).length = xs.toFinset.card := by
  rw [← mkSet_toFinset, List.toFinset_card_of_nodup (mkSet_nodup xs)]

theorem mkSet_eq_nil_iff (xs : List JSString) : mkSet xs = [] ↔ xs = [] := by
  constructor
  · intro h
    cases xs with
    | nil => rfl
    | cons x xs =>
      exfalso
      have hx : x ∈ mkSet (x :: xs) := (mem_mkSet _ _).mpr (List.mem_cons_self _ _)
      rw [h] at hx
      exact List.not_mem_nil _ hx
  · rintro rfl
    rfl

/-- Size of the intersection computed on line 62. -/
theorem inter_length (A B : List JSString) (hA : A.Nodup) :
    (A.filter (fun x => B.contains x)).length = (A.toFinset ∩ B.toFinset).card := by
  rw [← List.toFinset_card_of_nodup (hA.filter _)]
  congr 1
  ext y
  simp [List.mem_filter]

/-- Size of the union computed on line 63. -/
theorem union_length (A B : List JSString) :
    (mkSet (A ++ B)).length = (A.toFinset ∪ B.toFinset).card := by
  rw [mkSet_length, List.toFinset_append]

theorem inter_le_union (A B : List JSString) (hA : A.Nodup) :
    (A.filter (fun x => B.contains x)).length ≤ (mkSet (A ++ B)).length := by
  rw [inter_length A B hA, union_length]
  exact Finset.card_le_card (fun x hx => Finset.mem_union_left _ (Finset.mem_inter.mp hx).1)

theorem union_pos (A B : List JSString) (hA : A ≠ []) : 0 < (mkSet (A ++ B)).length := by
  rw [List.length_pos]
  intro h
  rw [mkSet_eq_nil_iff] at h
  exact hA (List.append_eq_nil.mp h).1

/-! ## The similarity scorer -/

/-- The Jaccard index of the keyword sets of two texts. -/
theorem keywordScore_eq (a b : JSString) :
    keywordScore a b =
      if keywords a = [] ∨ keywords b = [] then 0
      else if includes (normalize a) (normalize b) || includes (normalize b) (normalize a)
        then max ((((keywords a).toFinset ∩ (keywords b).toFinset).card : ℚ) /
              (((keywords a).toFinset ∪ (keywords b).toFinset).card : ℚ)) 0.8
        else (((keywords a).toFinset ∩ (keywords b).toFinset).card : ℚ) /
              (((keywords a).toFinset ∪ (keywords b).toFinset).card : ℚ) := by
  unfold keywordScore
  simp only [List.length_eq_zero, mkSet_eq_nil_iff]
  rw [inter_length _ _ (mkSet_nodup _), union_length, mkSet_toFinset, mkSet_toFinset]

theorem jaccard_nonneg (A B : Finset JSString) :
    (0 : ℚ) ≤ ((A ∩ B).card : ℚ) / ((A ∪ B).card : ℚ) := by
  positivity

theorem jaccard_le_one (A B : Finset JSString) :
    ((A ∩ B).card : ℚ) / ((A ∪ B).card : ℚ) ≤ 1 := by
  apply div_le_one_of_le₀
  · exact_mod_cast Finset.card_le_card
      (fun x hx => Finset.mem_union_left _ (Finset.mem_inter.mp hx).1)
  · positivity

theorem keywordScore_nonneg (a b : JSString) : 0 ≤ keywordScore a b := by
  rw [keywordScore_eq]
  split_ifs
  · exact le_refl _
  · exact le_trans (jaccard_nonneg _ _) (le_max_left _ _)
  · exact jaccard_nonneg _ _

theorem keywordScore_le_one (a b : JSString) : keywordScore a b ≤ 1 := by
  rw [keywordScore_eq]
  split_ifs
  · norm_num
  · exact max_le (jaccard_le_one _ _) (by norm_num)
  · exact jaccard_le_one _ _

theorem keywordScore_comm (a b : JSString) : keywordScore a b = keywordScore b a := by
  rw [keywordScore_eq a b, keywordScore_eq b a]
  rw [Finset.inter_comm, Finset.union_comm, Bool.or_comm]
  simp only [or_comm]

/-- Texts with the same non-empty keyword list score 1. -/
theorem keywordScore_of_keywords_eq (a b : JSString) (h : keywords a = keywords b)
    (hk : keywords a ≠ []) : keywordScore a b = 1 := by
  have hpos : (0 : ℚ) < (((keywords b).toFinset).card : ℚ) := by
    have hb : keywords b ≠ [] := h ▸ hk
    have : 0 < ((keywords b).toFinset).card := by
      rw [Finset.card_pos]
      obtain ⟨x, hx⟩ := List.exists_mem_of_ne_nil _ hb
      exact ⟨x, List.mem_toFinset.mpr hx⟩
    exact_mod_cast this
  have hj : ((((keywords b).toFinset ∩ (keywords b).toFinset).card : ℚ) /
      (((keywords b).toFinset ∪ (keywords b).toFinset).card : ℚ)) = 1 := by
    rw [Finset.inter_self, Finset.union_self]
    exact div_self (ne_of_gt hpos)
  rw [keywordScore_eq, h, hj]
  have hb : keywords b ≠ [] := h ▸ hk
  simp only [hb, or_self, if_false]
  split_ifs
  · exact max_eq_left (by norm_num)
  · rfl

theorem keywords_congr (a b : JSString) (h : normalize a = normalize b) :
    keywords a = keywords b := by
  unfold keywords
  rw [h]

/-! ## The corpus matcher -/

theorem scan_cons_gt (q : JSString) (e : Entry) (l : List Entry) (b : Option Entry) (bs : ℚ)
    (h : keywordScore q e.question > bs) :
    scan q (e :: l) (b, bs) = scan q l (some e, keywordScore q e.question) := by
  simp [scan, h]

theorem scan_cons_le (q : JSString) (e : Entry) (l : List Entry) (b : Option Entry) (bs : ℚ)
    (h : keywordScore q e.question ≤ bs) :
    scan q (e :: l) (b, bs) = scan q l (b, bs) := by
  simp [scan, not_lt.mpr h]

theorem scan_append (q : JSString) (l₁ l₂ : List Entry) :
    ∀ st : Option Entry × ℚ, scan q (l₁ ++ l₂) st = scan q l₂ (scan q l₁ st) := by
  induction l₁ with
  | nil => intro st; rfl
  | cons e l ih =>
    rintro ⟨b, bs⟩
    by_cases h : keywordScore q e.question > bs
    · rw [List.cons_append, scan_cons_gt q e _ b bs h, scan_cons_gt q e _ b bs h, ih]
    · rw [List.cons_append, scan_cons_le q e _ b bs (not_lt.mp h),
        scan_cons_le q e _ b bs (not_lt.mp h), ih]

/-- Entries that do not beat the running best leave the state unchanged. -/
theorem scan_fixed (q : JSString) (l : List Entry) (b : Option Entry) (bs : ℚ)
    (h : ∀ x ∈ l, keywordScore q x.question ≤ bs) : scan q l (b, bs) = (b, bs) := by
  induction l with
  | nil => rfl
  | cons e l ih =>
    rw [scan_cons_le q e l b bs (h e (List.mem_cons_self _ _))]
    exact ih (fun x hx => h x (List.mem_cons_of_mem _ hx))

/-- The running best score stays below a strict bound of all scores seen. -/
theorem scan_snd_lt (q : JSString) (M : ℚ) (l : List Entry) :
    ∀ (b : Option Entry) (bs : ℚ), bs < M → (∀ x ∈ l, keywordScore q x.question < M) →
      (scan q l (b, bs)).2 < M := by
  induction l with
  | nil => intro b bs h _; exact h
  | cons e l ih =>
    intro b bs hbs h
    have hl : ∀ x ∈ l, keywordScore q x.question < M :=
      fun x hx => h x (List.mem_cons_of_mem _ hx)
    by_cases hgt : keywordScore q e.question > bs
    · rw [scan_cons_gt q e l b bs hgt]
      exact ih _ _ (h e (List.mem_cons_self _ _)) hl
    · rw [scan_cons_le q e l b bs (not_lt.mp hgt)]
      exact ih _ _ hbs hl

/-- The loop ends on the first entry of maximal score when that score beats
the initial one. -/
theorem scan_first_max (q : JSString) (pre post : List Entry) (e : Entry)
    (b : Option Entry) (bs : ℚ) (hbs : bs < keywordScore q e.question)
    (hpre : ∀ x ∈ pre, keywordScore q x.question < keywordScore q e.question)
    (hpost : ∀ x ∈ post, keywordScore q x.question ≤ keywordScore q e.question) :
    scan q (pre ++ e :: post) (b, bs) = (some e, keywordScore q e.question) := by
  rw [scan_append]
  have h2 : (scan q pre (b, bs)).2 < keywordScore q e.question :=
    scan_snd_lt q _ pre b bs hbs hpre
  generalize scan q pre (b, bs) = st at h2
  obtain ⟨b', bs'⟩ := st
  rw [scan_cons_gt q e post b' bs' h2]
  exact scan_fixed q post _ _ hpost

theorem findBestAnswer_first_max (q : JSString) (pre post : List Entry) (e : Entry)
    (hpre : ∀ x ∈ pre, keywordScore q x.question < keywordScore q e.question)
    (hpost : ∀ x ∈ post, keywordScore q x.question ≤ keywordScore q e.question) :
    findBestAnswer (pre ++ e :: post) q =
      if 0.55 ≤ keywordScore q e.question then some e.answer else none := by
  unfold findBestAnswer
  by_cases hpos : 0 < keywordScore q e.question
  · rw [scan_first_max q pre post e none 0 hpos hpre hpost]
  · have hz : keywordScore q e.question ≤ 0 := not_lt.mp hpos
    have hall : ∀ x ∈ pre ++ e :: post, keywordScore q x.question ≤ 0 := by
      intro x hx
      rcases List.mem_append.mp hx with hx | hx
      · exact le_trans (le_of_lt (hpre x hx)) hz
      · rcases List.mem_cons.mp hx with rfl | hx
        · exact hz
        · exact le_trans (hpost x hx) hz
    rw [scan_fixed q _ none 0 hall]
    have : ¬ (0.55 : ℚ) ≤ keywordScore q e.question := by
      intro h
      have : (0.55 : ℚ) ≤ 0 := le_trans h hz
      norm_num at this
    simp [this]

/-- Every non-empty corpus has a first entry of maximal score. -/
theorem exists_first_max (q : JSString) (l : List Entry) (hl : l ≠ []) :
    ∃ pre e post, l = pre ++ e :: post ∧
      (∀ x ∈ pre, keywordScore q x.question < keywordScore q e.question) ∧
      (∀ x ∈ post, keywordScore q x.question ≤ keywordScore q e.question) := by
  induction l with
  | nil => exact absurd rfl hl
  | cons x l ih =>
    by_cases hnil : l = []
    · subst hnil
      exact ⟨[], x, [], rfl, by simp, by simp⟩
    · obtain ⟨pre, e, post, hdec, hpre, hpost⟩ := ih hnil
      by_cases hx : keywordScore q x.question < keywordScore q e.question
      · refine ⟨x :: pre, e, post, by rw [hdec]; rfl, ?_, hpost⟩
        intro y hy
        rcases List.mem_cons.mp hy with rfl | hy
        · exact hx
        · exact hpre y hy
      · refine ⟨[], x, l, rfl, by simp, ?_⟩
        intro y hy
        have hle : keywordScore q e.question ≤ keywordScore q x.question := not_lt.mp hx
        rw [hdec] at hy
        rcases List.mem_append.mp hy with hy | hy
        · exact le_trans (le_of_lt (hpre y hy)) hle
        · rcases List.mem_cons.mp hy with rfl | hy
          · exact hle
          · exact le_trans (hpost y hy) hle

/-! ## Case-insensitive containment -/

theorem isPrefixOf_nil_left (l : JSString) : ([] : JSString).isPrefixOf l = true := by
  cases l <;> rfl

theorem includes_nil (s : JSString) : includes s [] = true := by
  cases s with
  | nil => rfl
  | cons c cs => simp [includes, isPrefixOf_nil_left]

theorem lowerUnit_cases (d : Nat) :
    (lowerUnit d = [asciiLower d] ∧ d ≠ 0x130 ∧ d ≠ 0x212A) ∨ d = 0x130 ∨ d = 0x212A := by
  unfold lowerUnit asciiLower
  by_cases h1 : 0x41 ≤ d ∧ d ≤ 0x5A
  · left
    simp only [h1, and_self, if_true, true_and]
    omega
  · by_cases h2 : d = 0x130
    · right; left; exact h2
    · by_cases h3 : d = 0x212A
      · right; right; exact h3
      · left
        simp [h1, h2, h3]

theorem asciiLower_of_big (d : Nat) (h : 0x80 ≤ d) : asciiLower d = d := by
  unfold asciiLower
  have : ¬ (0x41 ≤ d ∧ d ≤ 0x5A) := by omega
  simp [this]

/-- On a plain pattern, matching at the head of the lower-cased text is
matching at the head of the case-folded text. -/
theorem isPrefixOf_toLowerCase (q : JSString) :
    ∀ p : JSString, plainPattern p = true →
      p.isPrefixOf (toLowerCase q) = p.isPrefixOf (q.map asciiLower) := by
  induction q with
  | nil => intro p _; rfl
  | cons d q ih =>
    intro p hp
    cases p with
    | nil => simp [isPrefixOf_nil_left]
    | cons c p =>
      simp only [plainPattern, Bool.and_eq_true, decide_eq_true_eq, bne_iff_ne, ne_eq,
        Bool.or_eq_true, Bool.not_eq_true', List.isEmpty_eq_false] at hp
      obtain ⟨⟨⟨hc, hk⟩, hi⟩, hp'⟩ := hp
      have hstep : toLowerCase (d :: q) = lowerUnit d ++ toLowerCase q := by
        simp [toLowerCase]
      rw [hstep, List.map_cons]
      rcases lowerUnit_cases d with ⟨hl, _, _⟩ | rfl | rfl
      · have e : [asciiLower d] ++ toLowerCase q = asciiLower d :: toLowerCase q := rfl
        rw [hl, e]
        simp only [List.isPrefixOf, ih p hp']
      · have hne : c ≠ 0x130 := by omega
        have h1 : asciiLower 0x130 = 0x130 := by decide
        have h2 : lowerUnit 0x130 = [0x69, 0x307] := by decide
        rw [h1, h2]
        simp only [List.cons_append, List.nil_append, List.isPrefixOf]
        have hfalse : (c == 0x130) = false := by simpa using hne
        rw [hfalse, Bool.false_and]
        by_cases hci : c = 0x69
        · cases p with
          | nil => simp [hci] at hi
          | cons c' p' =>
            simp only [plainPattern, Bool.and_eq_true, decide_eq_true_eq] at hp'
            have hc' : c' < 0x80 := hp'.1.1.1
            have : (c' == 0x307) = false := by
              have : c' ≠ 0x307 := by omega
              simpa using this
            simp [List.isPrefixOf, this]
        · have : (c == 0x69) = false := by simpa using hci
          simp [this]
      · have hne : c ≠ 0x212A := by omega
        have h1 : asciiLower 0x212A = 0x212A := by decide
        have h2 : lowerUnit 0x212A = [0x6B] := by decide
        rw [h1, h2]
        simp only [List.singleton_append, List.isPrefixOf]
        have hf1 : (c == 0x212A) = false := by simpa using hne
        have hf2 : (c == 0x6B) = false := by simpa using hk
        rw [hf1, hf2]
        simp

/-- On a plain pattern the check of `personalityReply` is case-insensitive
containment. -/
theorem includes_toLowerCase (p : JSString) (hp : plainPattern p = true) (q : JSString) :
    includes (toLowerCase q) p = containsCI q p := by
  unfold containsCI
  induction q with
  | nil => rfl
  | cons d q ih =>
    have hpre := isPrefixOf_toLowerCase (d :: q) p hp
    have hstep : toLowerCase (d :: q) = lowerUnit d ++ toLowerCase q := by
      simp [toLowerCase]
    rw [hstep] at hpre ⊢
    rw [List.map_cons] at hpre ⊢
    rcases lowerUnit_cases d with ⟨hl, _, _⟩ | rfl | rfl
    · rw [hl] at hpre ⊢
      simp only [List.singleton_append] at hpre ⊢
      simp only [includes, hpre, ih]
    · have h2 : lowerUnit 0x130 = [0x69, 0x307] := by decide
      rw [h2] at hpre ⊢
      simp only [List.cons_append, List.nil_append] at hpre ⊢
      simp only [includes, hpre, ih]
      cases p with
      | nil => simp [isPrefixOf_nil_left]
      | cons c p' =>
        simp only [plainPattern, Bool.and_eq_true, decide_eq_true_eq] at hp
        have hc : c < 0x80 := hp.1.1.1
        have : (c == 0x307) = false := by
          have : c ≠ 0x307 := by omega
          simpa using this
        simp [List.isPrefixOf, this]
    · have h2 : lowerUnit 0x212A = [0x6B] := by decide
      rw [h2] at hpre ⊢
      simp only [List.singleton_append] at hpre ⊢
      simp only [includes, hpre, ih]

/-! ## Further facts on scores -/

/-- A keyword of one text that the other lacks keeps the score below 1. -/
theorem keywordScore_lt_one (a b k : JSString) (hk : k ∈ keywords a) (hn : k ∉ keywords b) :
    keywordScore a b < 1 := by
  rw [keywordScore_eq]
  have hlt : (((keywords a).toFinset ∩ (keywords b).toFinset).card : ℚ) /
      (((keywords a).toFinset ∪ (keywords b).toFinset).card : ℚ) < 1 := by
    have hsub : (keywords a).toFinset ∩ (keywords b).toFinset ⊂
        (keywords a).toFinset ∪ (keywords b).toFinset := by
      rw [Finset.ssubset_iff_of_subset
        (fun x hx => Finset.mem_union_left _ (Finset.mem_inter.mp hx).1)]
      refine ⟨k, Finset.mem_union_left _ (List.mem_toFinset.mpr hk), ?_⟩
      intro h
      exact hn (List.mem_toFinset.mp (Finset.mem_inter.mp h).2)
    have hcard := Finset.card_lt_card hsub
    have hpos : (0 : ℚ) < (((keywords a).toFinset ∪ (keywords b).toFinset).card : ℚ) := by
      have : 0 < ((keywords a).toFinset ∪ (keywords b).toFinset).card :=
        lt_of_le_of_lt (Nat.zero_le _) hcard
      exact_mod_cast this
    rw [div_lt_one hpos]
    exact_mod_cast hcard
  split_ifs
  · norm_num
  · exact max_lt hlt (by norm_num)
  · exact hlt

theorem keywordScore_of_normalize_eq (a b : JSString) (h : normalize a = normalize b)
    (hk : keywords b ≠ []) : keywordScore a b = 1 :=
  keywordScore_of_keywords_eq a b (keywords_congr a b h) (keywords_congr a b h ▸ hk)

/-- An entry of score 1 that no earlier entry equals in score is the match. -/
theorem findBestAnswer_first_perfect (q : JSString) (pre post : List Entry) (e : Entry)
    (he : keywordScore q e.question = 1)
    (hpre : ∀ x ∈ pre, keywordScore q x.question < 1) :
    findBestAnswer (pre ++ e :: post) q = some e.answer := by
  rw [findBestAnswer_first_max q pre post e (by rw [he]; exact hpre)
    (by rw [he]; exact fun x _ => keywordScore_le_one q x.question)]
  rw [he]
  norm_num

/-- A list with an element satisfying `P` splits at the first such element. -/
theorem exists_first (P : Entry → Prop) (l : List Entry) (e : Entry) (he : e ∈ l) (hP : P e) :
    ∃ pre f post, l = pre ++ f :: post ∧ P f ∧ ∀ x ∈ pre, ¬ P x := by
  induction l with
  | nil => exact absurd he (List.not_mem_nil _)
  | cons x l ih =>
    by_cases hx : P x
    · exact ⟨[], x, l, rfl, hx, by simp⟩
    · have hel : e ∈ l := by
        rcases List.mem_cons.mp he with rfl | h
        · exact absurd hP hx
        · exact h
      obtain ⟨pre, f, post, hdec, hf, hpre⟩ := ih hel
      refine ⟨x :: pre, f, post, by rw [hdec]; rfl, hf, ?_⟩
      intro y hy
      rcases List.mem_cons.mp hy with rfl | hy
      · exact hx
      · exact hpre y hy

/-! ## Properties of the scorer and of the matcher -/

/-- C4: `keywordScore` is symmetric: for all strings `a` and `b`,
`keywordScore(a, b) = keywordScore(b, a)`. -/
theorem keywordScore_symmetric (a b : JSString) : keywordScore a b = keywordScore b a :=
  keywordScore_comm a b

/-- C5: for all strings `a` and `b`, `keywordScore(a, b)` lies in the closed
interval from 0 to 1, and whenever the guard of line 61 lets the division
happen the size of the union is not zero. -/
theorem keywordScore_unit_interval (a b : JSString) :
    0 ≤ keywordScore a b ∧ keywordScore a b ≤ 1 ∧
    (¬ ((mkSet (keywords a)).length = 0 ∨ (mkSet (keywords b)).length = 0) →
      (mkSet (mkSet (keywords a) ++ mkSet (keywords b))).length ≠ 0) := by
  refine ⟨keywordScore_nonneg a b, keywordScore_le_one a b, ?_⟩
  intro h
  have hA : mkSet (keywords a) ≠ [] := by
    intro hnil
    exact h (Or.inl (by rw [hnil]; rfl))
  exact Nat.pos_iff_ne_zero.mp (union_pos _ _ hA)

/-- C6: a string with at least one keyword scores 1 against itself. -/
theorem keywordScore_self (x : JSString) (h : keywords x ≠ []) : keywordScore x x = 1 :=
  keywordScore_of_keywords_eq x x rfl h

/-- C6 at the text "What is your name?". -/
theorem keywordScore_self_witness :
    keywords (js "What is your name?") ≠ [] ∧
    keywordScore (js "What is your name?") (js "What is your name?") = 1 :=
  ⟨by decide, keywordScore_self (js "What is your name?") (by decide)⟩

/-- C2: `findBestAnswer` returns null on the empty corpus; on a corpus whose
first entry of maximal score is `e` (every earlier entry scores strictly
less, every later one at most as much) it returns the answer of `e` when that
maximal score is at least 0.55 and null when it is below; every non-empty
corpus has such an entry. -/
theorem findBestAnswer_spec (corpus : List Entry) (query : JSString) :
    findBestAnswer [] query = none ∧
    (∀ pre e post, corpus = pre ++ e :: post →
      (∀ x ∈ pre, keywordScore query x.question < keywordScore query e.question) →
      (∀ x ∈ post, keywordScore query x.question ≤ keywordScore query e.question) →
      (0.55 ≤ keywordScore query e.question → findBestAnswer corpus query = some e.answer) ∧
      (keywordScore query e.question < 0.55 → findBestAnswer corpus query = none)) ∧
    (corpus ≠ [] → ∃ pre e post, corpus = pre ++ e :: post ∧
      (∀ x ∈ pre, keywordScore query x.question < keywordScore query e.question) ∧
      (∀ x ∈ post, keywordScore query x.question ≤ keywordScore query e.question)) := by
  refine ⟨rfl, ?_, exists_first_max query corpus⟩
  intro pre e post hdec hpre hpost
  rw [hdec, findBestAnswer_first_max query pre post e hpre hpost]
  constructor
  · intro h
    rw [if_pos h]
  · intro h
    rw [if_neg (not_le.mpr h)]

/-- C7 as stated fails: with an earlier entry of the same keywords, the query
"what is your name" gets the answer of that earlier entry, not "I am ChatBot.". -/
theorem findBestAnswer_earlier_tie :
    nameEntry ∈ [tiedEntry, nameEntry] ∧
    keywords nameEntry.question ≠ [] ∧
    normalize (js "what is your name") = normalize nameEntry.question ∧
    findBestAnswer [tiedEntry, nameEntry] (js "what is your name") = some (js "Call me Bot.") ∧
    findBestAnswer [tiedEntry, nameEntry] (js "what is your name") ≠ some nameEntry.answer := by
  have hscore : keywordScore (js "what is your name") tiedEntry.question = 1 :=
    keywordScore_of_keywords_eq _ _ (by decide) (by decide)
  have hfind : findBestAnswer [tiedEntry, nameEntry] (js "what is your name")
      = some (js "Call me Bot.") :=
    findBestAnswer_first_perfect (js "what is your name") [] [nameEntry] tiedEntry hscore
      (by simp)
  refine ⟨by decide, by decide, by decide, hfind, ?_⟩
  rw [hfind]
  decide

/-- C7, amended: when the corpus contains an entry `e` whose question has a
keyword and the query normalizes to the normalized question of `e`,
`findBestAnswer` returns the answer of the first entry whose score against
the query is 1; that is the answer of `e` when no entry before `e` scores 1. -/
theorem findBestAnswer_exact_question (corpus : List Entry) (e : Entry) (query : JSString)
    (he : e ∈ corpus) (hk : keywords e.question ≠ [])
    (hn : normalize query = normalize e.question) :
    (∃ pre f post, corpus = pre ++ f :: post ∧ keywordScore query f.question = 1 ∧
      (∀ x ∈ pre, keywordScore query x.question < 1) ∧
      findBestAnswer corpus query = some f.answer) ∧
    (∀ pre post, corpus = pre ++ e :: post →
      (∀ x ∈ pre, keywordScore query x.question < 1) →
      findBestAnswer corpus query = some e.answer) := by
  have hscore : keywordScore query e.question = 1 :=
    keywordScore_of_normalize_eq query e.question hn hk
  constructor
  · obtain ⟨pre, f, post, hdec, hf, hpre⟩ :=
      exists_first (fun x => keywordScore query x.question = 1) corpus e he hscore
    have hlt : ∀ x ∈ pre, keywordScore query x.question < 1 := fun x hx =>
      lt_of_le_of_ne (keywordScore_le_one query x.question) (hpre x hx)
    exact ⟨pre, f, post, hdec, hf, hlt, by
      rw [hdec]; exact findBestAnswer_first_perfect query pre post f hf hlt⟩
  · intro pre post hdec hpre
    rw [hdec]
    exact findBestAnswer_first_perfect query pre post e hscore hpre

/-- C7, amended, at the corpus `[otherEntry, nameEntry]` and the query
"what is your name". -/
theorem findBestAnswer_exact_question_witness :
    nameEntry ∈ [otherEntry, nameEntry] ∧
    keywords nameEntry.question ≠ [] ∧
    normalize (js "what is your name") = normalize nameEntry.question ∧
    findBestAnswer [otherEntry, nameEntry] (js "what is your name") = some (js "I am ChatBot.") :=
  ⟨by decide, by decide, by decide,
    (findBestAnswer_exact_question [otherEntry, nameEntry] nameEntry (js "what is your name")
      (by decide) (by decide) (by decide)).2 [otherEntry] [] rfl (by
        intro x hx
        rw [List.mem_singleton] at hx
        subst hx
        exact keywordScore_lt_one _ _ (js "your") (by decide) (by decide))⟩

/-! ## The English heuristic -/

/-- The test of `looksEnglish` without division. -/
theorem looksEnglish_iff_nat (s : JSString) :
    looksEnglish s = true ↔
      s ≠ [] ∧ 5 < (s.filter isAsciiLetter).length ∧
        20 * (s.filter isNonAscii).length < 3 * s.length := by
  cases s with
  | nil => simp [looksEnglish]
  | cons c cs =>
    have hpos : (0 : ℚ) < (((c :: cs).length : ℕ) : ℚ) := by
      have : 0 < (c :: cs).length := Nat.succ_pos _
      exact_mod_cast this
    have hdiv : ((((c :: cs).filter isNonAscii).length : ℕ) : ℚ) / (((c :: cs).length : ℕ) : ℚ)
          < 0.15 ↔ 20 * ((c :: cs).filter isNonAscii).length < 3 * (c :: cs).length := by
      rw [div_lt_iff₀ hpos]
      constructor
      · intro h
        have h' : (20 : ℚ) * ((((c :: cs).filter isNonAscii).length : ℕ) : ℚ)
            < 3 * (((c :: cs).length : ℕ) : ℚ) := by linarith
        exact_mod_cast h'
      · intro h
        have h' : (20 : ℚ) * ((((c :: cs).filter isNonAscii).length : ℕ) : ℚ)
            < 3 * (((c :: cs).length : ℕ) : ℚ) := by exact_mod_cast h
        linarith
    unfold looksEnglish
    simp only [List.isEmpty_cons, Bool.false_eq_true, if_false, Bool.and_eq_true,
      decide_eq_true_eq, ne_eq, reduceCtorEq, not_false_eq_true, true_and, gt_iff_lt]
    rw [hdiv]

theorem looksEnglish_empty : looksEnglish (js "") = false := rfl

theorem looksEnglish_hi : looksEnglish (js "hi") = false := by
  rw [← Bool.not_eq_true, looksEnglish_iff_nat]
  decide

theorem looksEnglish_sentence :
    looksEnglish (js "This is a normal English sentence.") = true := by
  rw [looksEnglish_iff_nat]
  decide

/-- C10: `looksEnglish(s)` is false on the empty string and otherwise true
exactly when more than 5 code units of `s` are ASCII letters and the number
of code units outside ASCII divided by the length of `s` is below 0.15; it is
false on "" and on "hi" and true on "This is a normal English sentence.". -/
theorem looksEnglish_spec (s : JSString) :
    (s = [] → looksEnglish s = false) ∧
    (s ≠ [] → (looksEnglish s = true ↔
      5 < s.countP isAsciiLetter ∧
        ((s.countP isNonAscii : ℕ) : ℚ) / ((s.length : ℕ) : ℚ) < 0.15)) ∧
    looksEnglish (js "") = false ∧
    looksEnglish (js "hi") = false ∧
    looksEnglish (js "This is a normal English sentence.") = true := by
  refine ⟨?_, ?_, looksEnglish_empty, looksEnglish_hi, looksEnglish_sentence⟩
  · rintro rfl
    rfl
  · intro hs
    cases s with
    | nil => exact absurd rfl hs
    | cons c cs =>
      unfold looksEnglish
      simp only [List.isEmpty_cons, Bool.false_eq_true, if_false, Bool.and_eq_true,
        decide_eq_true_eq, gt_iff_lt, List.countP_eq_length_filter]

/-! ## The web fallback -/

theorem search_falsy (get : Backend) (q : JSString)
    (h : get q = Outcome.thrown ∨ get q = Outcome.value none) :
    googleSearch get q = none ∧ duckDuckGoSearch get q = none ∧ wikipediaSearch get q = none := by
  rcases h with h | h <;> simp [googleSearch, duckDuckGoSearch, wikipediaSearch, h]

theorem webFallback_all_null (web : Web) (query : JSString)
    (hg : googleSearch web.google query = none)
    (hd : duckDuckGoSearch web.duck query = none)
    (hw : wikipediaSearch web.wiki query = none) :
    webFallback web query =
      js "I couldn't find a clear English answer for “" ++ query ++ js "”." := by
  simp [webFallback, hg, hd, hw]

theorem webFallback_ne_nil (web : Web) (query : JSString) : webFallback web query ≠ [] := by
  unfold webFallback
  split
  · exact fun h => List.cons_ne_nil _ _ (List.append_eq_nil.mp h).2
  · split
    · exact fun h => List.cons_ne_nil _ _ (List.append_eq_nil.mp h).2
    · split
      · exact fun h => List.cons_ne_nil _ _ (List.append_eq_nil.mp h).2
      · have h : js "I couldn't find a clear English answer for “" ≠ [] := by decide
        intro hnil
        exact h (List.append_eq_nil.mp (List.append_eq_nil.mp hnil).1).1

/-- C9 as stated fails: with every search backend failing, the apology for
the query "x" is not the sentence with straight double quotes. -/
theorem webFallback_not_straight_quotes :
    deadWeb.google (js "x") = Outcome.thrown ∧
    deadWeb.duck (js "x") = Outcome.thrown ∧
    deadWeb.wiki (js "x") = Outcome.thrown ∧
    webFallback deadWeb (js "x") ≠ apologyStraight (js "x") := by
  refine ⟨rfl, rfl, rfl, ?_⟩
  decide

/-- C9, amended: when each of the three search backends fails or returns
null, `webFallback(q)` is the sentence `I couldn't find a clear English
answer for `, then U+201C, the query verbatim, U+201D and a full stop. -/
theorem webFallback_apology (web : Web) (query : JSString)
    (hg : web.google query = Outcome.thrown ∨ web.google query = Outcome.value none)
    (hd : web.duck query = Outcome.thrown ∨ web.duck query = Outcome.value none)
    (hw : web.wiki query = Outcome.thrown ∨ web.wiki query = Outcome.value none) :
    webFallback web query =
      js "I couldn't find a clear English answer for " ++ [0x201C] ++ query ++ [0x201D, 0x2E] := by
  rw [webFallback_all_null web query (search_falsy _ _ hg).1 (search_falsy _ _ hd).2.1
    (search_falsy _ _ hw).2.2]
  have h1 : js "I couldn't find a clear English answer for “"
      = js "I couldn't find a clear English answer for " ++ [0x201C] := by decide
  have h2 : js "”." = [0x201D, 0x2E] := by decide
  rw [h1, h2]

/-- C9, amended, at the query "x" with the three backends failing. -/
theorem webFallback_apology_witness :
    webFallback deadWeb (js "x") =
      js "I couldn't find a clear English answer for " ++ [0x201C] ++ js "x" ++ [0x201D, 0x2E] :=
  webFallback_apology deadWeb (js "x") (Or.inl rfl) (Or.inl rfl) (Or.inl rfl)

/-! ## The personality responder and the chain -/

theorem truthy_iff (x : Option JSString) : truthy x = true ↔ ∃ s, x = some s ∧ s ≠ [] := by
  cases x with
  | none => simp [truthy]
  | some s => cases s <;> simp [truthy]

theorem truthy_false_iff (x : Option JSString) :
    truthy x = false ↔ x = none ∨ x = some [] := by
  cases x with
  | none => simp [truthy]
  | some s => cases s <;> simp [truthy]

/-- The checks of `personalityReply` are case-insensitive containments. -/
theorem personalityReply_eq (q : JSString) :
    personalityReply q =
      if containsCI q (js "who created you") || containsCI q (js "who made you") then
        some creatorReply
      else if containsCI q (js "girlfriend") || containsCI q (js "boyfriend") then
        some singleReply
      else none := by
  unfold personalityReply
  simp only [includes_toLowerCase (js "who created you") (by decide),
    includes_toLowerCase (js "who made you") (by decide),
    includes_toLowerCase (js "girlfriend") (by decide),
    includes_toLowerCase (js "boyfriend") (by decide)]

/-- The personality responder never returns the empty string. -/
theorem personalityReply_null_or_truthy (q : JSString) :
    personalityReply q = none ∨ truthy (personalityReply q) = true := by
  unfold personalityReply
  simp only []
  split_ifs
  · right; decide
  · right; decide
  · left; rfl

/-- The generative provider never returns the empty string. -/
theorem askGroq_null_or_truthy (hasKey : Bool) (post : Backend) (prompt : JSString) :
    askGroq hasKey post prompt = none ∨ truthy (askGroq hasKey post prompt) = true := by
  unfold askGroq
  split_ifs
  · left; rfl
  · split
    · rename_i text _
      by_cases h : truthy (text.map trim) = true
      · right; rw [if_pos h]; exact h
      · left; rw [if_neg h]
    · left; rfl

theorem resolve_of_personality (w : World) (q : JSString)
    (h : truthy (personalityReply q) = true) : resolve w q = personalityReply q := by
  simp [resolve, h]

theorem resolve_of_corpus (w : World) (q : JSString)
    (h₁ : truthy (personalityReply q) = false)
    (h₂ : truthy (findBestAnswer w.qaData q) = true) :
    resolve w q = findBestAnswer w.qaData q := by
  simp [resolve, h₁, h₂]

theorem resolve_of_groq (w : World) (q : JSString)
    (h₁ : truthy (personalityReply q) = false)
    (h₂ : truthy (findBestAnswer w.qaData q) = false)
    (h₃ : truthy (askGroq w.hasKey w.groq q) = true) :
    resolve w q = askGroq w.hasKey w.groq q := by
  simp [resolve, h₁, h₂, h₃]

theorem resolve_of_web (w : World) (q : JSString)
    (h₁ : truthy (personalityReply q) = false)
    (h₂ : truthy (findBestAnswer w.qaData q) = false)
    (h₃ : truthy (askGroq w.hasKey w.groq q) = false) :
    resolve w q = some (webFallback w.web q) := by
  have h₄ : truthy (some (webFallback w.web q)) = true :=
    (truthy_iff _).mpr ⟨_, rfl, webFallback_ne_nil _ _⟩
  simp [resolve, h₁, h₂, h₃, h₄]

/-- The chain always produces a non-empty string. -/
theorem resolve_truthy (w : World) (q : JSString) : truthy (resolve w q) = true := by
  by_cases h₁ : truthy (personalityReply q) = true
  · rw [resolve_of_personality w q h₁]; exact h₁
  · rw [Bool.not_eq_true] at h₁
    by_cases h₂ : truthy (findBestAnswer w.qaData q) = true
    · rw [resolve_of_corpus w q h₁ h₂]; exact h₂
    · rw [Bool.not_eq_true] at h₂
      by_cases h₃ : truthy (askGroq w.hasKey w.groq q) = true
      · rw [resolve_of_groq w q h₁ h₂ h₃]; exact h₃
      · rw [Bool.not_eq_true] at h₃
        rw [resolve_of_web w q h₁ h₂ h₃]
        exact (truthy_iff _).mpr ⟨_, rfl, webFallback_ne_nil _ _⟩

theorem askGroq_42 (prompt : JSString) :
    askGroq true (answering (js "42")) prompt = some (js "42") := by
  have h : (if truthy ((some (js "42")).map trim) then (some (js "42")).map trim else none)
      = some (js "42") := by decide
  simpa [askGroq, answering] using h

/-! ## Properties of the chain -/

/-- C8: a query that contains "who created you" case-insensitively gets the
creator reply from `personalityReply`, and `resolve` returns it in every
world (whatever the corpus and the providers are); a query that contains
none of the four patterns case-insensitively gets null from
`personalityReply`; so it is for the query "who created you" itself. -/
theorem personalityReply_creator (q : JSString) :
    (containsCI q (js "who created you") = true →
      personalityReply q = some creatorReply ∧
      ∀ w : World, resolve w q = some creatorReply) ∧
    (containsCI q (js "who created you") = false →
      containsCI q (js "who made you") = false →
      containsCI q (js "girlfriend") = false →
      containsCI q (js "boyfriend") = false →
      personalityReply q = none) ∧
    personalityReply (js "who created you") = some creatorReply ∧
    (∀ w : World, resolve w (js "who created you") = some creatorReply) := by
  have key : ∀ q' : JSString, containsCI q' (js "who created you") = true →
      personalityReply q' = some creatorReply ∧
      ∀ w : World, resolve w q' = some creatorReply := by
    intro q' h
    have hp : personalityReply q' = some creatorReply := by
      rw [personalityReply_eq, h]
      simp
    refine ⟨hp, fun w => ?_⟩
    rw [resolve_of_personality w q' (by rw [hp]; decide), hp]
  refine ⟨key q, ?_, (key (js "who created you") (by decide)).1,
    (key (js "who created you") (by decide)).2⟩
  intro h₁ h₂ h₃ h₄
  rw [personalityReply_eq, h₁, h₂, h₃, h₄]
  simp

/-- C1 as stated fails: on a corpus whose matching entry has the empty string
as answer, `findBestAnswer` is non-null and `personalityReply` is null, yet
`resolve` returns the answer "42" of the generative provider. -/
theorem resolve_skips_empty_answer :
    personalityReply (js "hello world") = none ∧
    findBestAnswer [emptyAnswerEntry] (js "hello world") = some (js "") ∧
    findBestAnswer [emptyAnswerEntry] (js "hello world") ≠ none ∧
    resolve (world42 [emptyAnswerEntry]) (js "hello world") = some (js "42") ∧
    resolve (world42 [emptyAnswerEntry]) (js "hello world")
      ≠ findBestAnswer [emptyAnswerEntry] (js "hello world") := by
  have hp : personalityReply (js "hello world") = none := by decide
  have hscore : keywordScore (js "hello world") emptyAnswerEntry.question = 1 :=
    keywordScore_of_keywords_eq _ _ (by decide) (by decide)
  have hf : findBestAnswer [emptyAnswerEntry] (js "hello world") = some (js "") :=
    findBestAnswer_first_perfect (js "hello world") [] [] emptyAnswerEntry hscore (by simp)
  have hr : resolve (world42 [emptyAnswerEntry]) (js "hello world") = some (js "42") := by
    rw [resolve_of_groq _ _ (by rw [hp]; rfl) (by
      show truthy (findBestAnswer [emptyAnswerEntry] (js "hello world")) = false
      rw [hf]; rfl) (by
      show truthy (askGroq true (answering (js "42")) (js "hello world")) = true
      rw [askGroq_42]; decide)]
    exact askGroq_42 _
  refine ⟨hp, hf, ?_, hr, ?_⟩
  · rw [hf]; decide
  · rw [hr, hf]; decide

/-- C1, amended: `resolve` returns the first result that is neither null nor
the empty string in the order `personalityReply`, `findBestAnswer`,
`askGroq`, `webFallback`, and its value depends on a later stage only when
every earlier stage returned null or the empty string (`personalityReply`
and `askGroq` never return the empty string); whenever `findBestAnswer` is a
non-empty string and `personalityReply` is null, `resolve` returns that
matched answer; with an empty corpus and a generative provider answering
"42", `resolve("anything")` returns "42". -/
theorem resolve_first_truthy (w : World) (q : JSString) :
    (truthy (personalityReply q) = true → resolve w q = personalityReply q) ∧
    (truthy (personalityReply q) = false → truthy (findBestAnswer w.qaData q) = true →
      resolve w q = findBestAnswer w.qaData q) ∧
    (truthy (personalityReply q) = false → truthy (findBestAnswer w.qaData q) = false →
      truthy (askGroq w.hasKey w.groq q) = true → resolve w q = askGroq w.hasKey w.groq q) ∧
    (truthy (personalityReply q) = false → truthy (findBestAnswer w.qaData q) = false →
      truthy (askGroq w.hasKey w.groq q) = false → resolve w q = some (webFallback w.web q)) ∧
    (truthy (personalityReply q) = false ↔ personalityReply q = none) ∧
    (truthy (findBestAnswer w.qaData q) = false ↔
      findBestAnswer w.qaData q = none ∨ findBestAnswer w.qaData q = some []) ∧
    (truthy (askGroq w.hasKey w.groq q) = false ↔ askGroq w.hasKey w.groq q = none) ∧
    (∀ r, personalityReply q = none → findBestAnswer w.qaData q = some r → r ≠ [] →
      resolve w q = some r) ∧
    resolve ⟨[], true, answering (js "42"), w.web⟩ (js "anything") = some (js "42") := by
  refine ⟨resolve_of_personality w q, resolve_of_corpus w q, resolve_of_groq w q,
    resolve_of_web w q, ?_, truthy_false_iff _, ?_, ?_, ?_⟩
  · constructor
    · intro h
      rcases personalityReply_null_or_truthy q with h' | h'
      · exact h'
      · rw [h] at h'; exact absurd h' (by decide)
    · intro h; rw [h]; rfl
  · constructor
    · intro h
      rcases askGroq_null_or_truthy w.hasKey w.groq q with h' | h'
      · exact h'
      · rw [h] at h'; exact absurd h' (by decide)
    · intro h; rw [h]; rfl
  · intro r hp hf hr
    rw [resolve_of_corpus w q (by rw [hp]; rfl) (by rw [hf]; exact (truthy_iff _).mpr ⟨r, rfl, hr⟩),
      hf]
  · rw [resolve_of_groq _ _ (by decide) (by rfl) (by
      show truthy (askGroq true (answering (js "42")) (js "anything")) = true
      rw [askGroq_42]; decide)]
    exact askGroq_42 _

/-- C3: for every non-empty query string `q`, every corpus and every outcome
of the providers, the handler answers with status 200 and the reply
`resolve(q)`, which is a string, neither null nor empty. -/
theorem resolve_never_empty (w : World) (q : JSString) (hq : q ≠ []) :
    chat w (some q) = ⟨200, resolve w q⟩ ∧
    ∃ s, resolve w q = some s ∧ s ≠ [] := by
  constructor
  · cases q with
    | nil => exact absurd rfl hq
    | cons c cs => rfl
  · exact (truthy_iff _).mp (resolve_truthy w q)

/-- C3 at the query "hello" on an empty corpus with every provider failing. -/
theorem resolve_never_empty_witness :
    js "hello" ≠ [] ∧
    chat ⟨[], false, failing, deadWeb⟩ (some (js "hello"))
      = ⟨200, resolve ⟨[], false, failing, deadWeb⟩ (js "hello")⟩ ∧
    ∃ s, resolve ⟨[], false, failing, deadWeb⟩ (js "hello") = some s ∧ s ≠ [] :=
  ⟨by decide, resolve_never_empty ⟨[], false, failing, deadWeb⟩ (js "hello") (by decide)⟩

end Server
